import Mathlib

/-!
# Verification of the pvo_limburg ingestion pipeline

Shallow embedding of the ingestion/normalization/deduplication core of the
pvo_limburg repository (`src/webScrapers/scrape_police.py`,
`src/webScrapers/scrape_gelderlander.py`,
`src/webScrapers/scrape_all_rss_feeds.py`), with theorems settling the
frozen claims about it.

Python dictionaries holding JSON records are embedded as association
lists of string fields (`PItem`); `dict.get` returns `Option String`
(`none` models an absent key, mirroring Python's `None`).  Dates are
embedded as integers at calendar-day granularity (Python `datetime` day
arithmetic is integer day arithmetic).  Network and library effects
(HTTP responses, `feedparser` output, `readability.Document`,
`datetime.strptime`) are passed in as explicit oracle arguments, so every
function here is the pure data-flow of the corresponding Python function.
-/

namespace PvoLimburg

/-- A JSON-object record as the Python scrapers handle it: an association
list of string-valued fields.  `get` mirrors `dict.get(key)` (returning
`none` for an absent key, as Python returns `None`). -/
structure PItem where
  fields : List (String × String)
deriving DecidableEq, Repr

/-- Python `item.get(key)`: the first binding of `key`, or `none` when
the key is absent. -/
def PItem.get (it : PItem) (k : String) : Option String :=
  (it.fields.find? (fun p => p.1 = k)).map (·.2)

/-! ## `merge_and_dedupe` (scrape_police.py, lines 112–122)

```python
def merge_and_dedupe(items, key="url"):
    seen = set()
    merged = []
    for item in items:
        identifier = item.get(key)
        if identifier not in seen:
            seen.add(identifier)
            merged.append(item)
    return merged
```

The `seen` set holds `Option String` values: Python's `None` (absent key)
is a set element like any other. -/

/-- The loop of `merge_and_dedupe`, with the `seen` set made explicit. -/
def dedupeAux (key : String) : List PItem → List (Option String) → List PItem
  | [], _ => []
  | it :: rest, seen =>
    if it.get key ∈ seen then dedupeAux key rest seen
    else it :: dedupeAux key rest (it.get key :: seen)

/-- Python `merge_and_dedupe(items, key)`: first-seen-wins dedup keyed
on `item.get(key)`, starting from an empty seen set. -/
def merge_and_dedupe (items : List PItem) (key : String) : List PItem :=
  dedupeAux key items []

/-! ## The gelderlander merge (scrape_gelderlander.py)

`load_existing_articles` (lines 72–86) builds
`urls = {article.get('url') for article in articles if article.get('url')}`:
the seen set drawn from the existing corpus skips records whose `url` is
absent (`None`) or empty (`""`) — both are falsy in Python.

`save_articles` (lines 120–141) then appends each new article whose
`article.get('url')` is not in that set, and adds `article.get('url')`
(which may be `None` or `""`) to the set after appending. -/

/-- The seen set `load_existing_articles` builds from the existing
corpus: the `url` values of the existing records, skipping falsy
(`None`/empty) ones.  Elements are `some u` with `u ≠ ""`. -/
def gelSeen (existing : List PItem) : List (Option String) :=
  existing.filterMap fun a =>
    match a.get "url" with
    | some s => if s = "" then none else some (some s)
    | none => none

/-- The filtering loop of `save_articles`: keep each incoming article
whose `url` key is not yet in `seen`, adding its key (even `none`/`""`)
to `seen` once kept. -/
def glFilterNew (seen : List (Option String)) : List PItem → List PItem
  | [] => []
  | a :: rest =>
    if a.get "url" ∈ seen then glFilterNew seen rest
    else a :: glFilterNew (a.get "url" :: seen) rest

/-- The merge performed by `save_articles`: the existing corpus with the
surviving incoming articles appended (`all_articles.append(article)`). -/
def glMerge (existing incoming : List PItem) : List PItem :=
  existing ++ glFilterNew (gelSeen existing) incoming

/-- State of the corpus file on disk, as `load_existing_articles`
distinguishes it: missing, present-but-unreadable (I/O error or invalid
JSON, the `except` branch), or valid JSON holding `articles`. -/
inductive FileState where
  | absent
  | unreadable
  | valid (articles : List PItem)

/-- Python `load_existing_articles()` (scrape_gelderlander.py, lines
72–86): a missing file and an unreadable/invalid file both yield the
empty corpus with an empty seen set (the unreadable case returns
normally after a `[WARN]` log line — no exception reaches the caller);
a valid file yields its records plus the seen set of their truthy urls. -/
def load_existing_articles : FileState → List PItem × List (Option String)
  | .absent => ([], [])
  | .unreadable => ([], [])
  | .valid articles => (articles, gelSeen articles)

/-- Python `save_articles(new_articles)` (scrape_gelderlander.py, lines
120–141): load the existing corpus, append the non-duplicate incoming
articles, and return the full contents written back to the file
(the `json.dump` replaces the file as a whole). -/
def save_articles (fs : FileState) (newArticles : List PItem) : List PItem :=
  (load_existing_articles fs).1 ++
    glFilterNew (load_existing_articles fs).2 newArticles

/-! ## Whitespace utilities

Python `s.split()` splits on runs of whitespace and drops empty pieces;
`clean_whitespace(s)` is `" ".join(s.split()) if s else ""` (identical in
both feed scrapers). They are embedded over character lists. -/

/-- The character walk of Python `s.split()`: `acc` holds the (reversed)
current word; whitespace closes the current word, anything else extends
it.  Empty pieces are never produced. -/
def splitWsAux : List Char → List Char → List (List Char)
  | [], acc => if acc = [] then [] else [acc.reverse]
  | c :: cs, acc =>
    if c.isWhitespace then
      if acc = [] then splitWsAux cs []
      else acc.reverse :: splitWsAux cs []
    else splitWsAux cs (c :: acc)

/-- Python `s.split()`: the whitespace-delimited words of `s`. -/
def pySplit (s : String) : List (List Char) :=
  splitWsAux s.toList []

/-- Python `len(s.split())`: the whitespace-delimited word count used by
the 40-word floor of `extract_main_text`. -/
def pyWordCount (s : String) : Nat :=
  (pySplit s).length

/-- Python `" ".join(words)` over character-list words. -/
def pyJoinWords : List (List Char) → List Char
  | [] => []
  | [w] => w
  | w :: v :: ws => w ++ ' ' :: pyJoinWords (v :: ws)

/-- Python `clean_whitespace(s)`, i.e. `" ".join(s.split()) if s else ""`. -/
def cleanWhitespace (s : String) : String :=
  if s = "" then "" else String.mk (pyJoinWords (pySplit s))

/-- Character-level statement of "whitespace-collapsed": no two adjacent
whitespace characters, and every whitespace character is a plain space
(so in particular no newline anywhere). -/
def okChars (l : List Char) : Prop :=
  List.Chain' (fun a b => ¬(a.isWhitespace ∧ b.isWhitespace)) l ∧
  ∀ c ∈ l, c.isWhitespace → c = ' '

/-- A string is whitespace-collapsed: no internal runs of spaces or
newlines (every whitespace character is a single plain space). -/
def Collapsed (s : String) : Prop :=
  okChars s.toList

/-- A string is a single logical line: it contains no newline character. -/
def NoNewline (s : String) : Prop :=
  '\n' ∉ s.toList

/-! ## HTML and text extraction

An `Html` value carries exactly what the two `extract_main_text`
implementations consume from an HTML document: the raw text (only its
emptiness is tested by `if not html`), the paragraph texts of the
readability (`Document(html).summary()`) rendering — `none` models the
readability library raising an exception — and the paragraph texts of
the raw document (`BeautifulSoup(html, "html.parser").find_all("p")`,
which never raises).  Each paragraph text stands for
`p.get_text(" ", strip=True)`. -/

/-- Abstraction of an HTML document as the extractors consume it. -/
structure Html where
  source : String
  readability : Option (List String)
  rawParas : List String

/-- Python `" ".join(p.get_text(" ", strip=True) for p in soup.find_all("p"))`. -/
def joinParas (ps : List String) : String :=
  String.intercalate " " ps

/-- Python `extract_main_text(html)` of scrape_all_rss_feeds.py (lines
64–89): primary readability extraction accepted only when non-empty and
above the 40-word floor, otherwise the raw-paragraph fallback;
`docAvailable` models `Document is not None`. -/
def extract_main_text (docAvailable : Bool) (h : Html) : String :=
  if h.source = "" then ""
  else
    match docAvailable, h.readability with
    | true, some ps =>
      let text := joinParas ps
      if text ≠ "" ∧ 40 < pyWordCount text then cleanWhitespace text
      else cleanWhitespace (joinParas h.rawParas)
    | _, _ => cleanWhitespace (joinParas h.rawParas)

/-- Python `extract_main_text(html)` of scrape_gelderlander.py (lines
43–58): when the readability library is available its paragraph join is
used unconditionally (no word floor, no fallback on empty); an exception
there leaves `text = ""`; only when the library is unavailable are the
raw document's paragraphs used. -/
def gl_extract_main_text (docAvailable : Bool) (h : Html) : String :=
  if h.source = "" then ""
  else
    cleanWhitespace
      (match docAvailable, h.readability with
       | true, some ps => joinParas ps
       | true, none => ""
       | false, _ => joinParas h.rawParas)

/-! ## Feed entries and the two feed adapters -/

/-- The canonical record every adapter produces (data-model schema). -/
structure CanonicalRecord where
  feed : String
  title : String
  url : String
  published : String
  summary : String
  full_text : String
  scraped_at : String
deriving DecidableEq, Repr

/-- A feedparser entry, restricted to the keys the adapters read;
`none` models an absent key. -/
structure Entry where
  link : Option String := none
  id : Option String := none
  title : Option String := none
  summary : Option String := none
  description : Option String := none
  published : Option String := none
  updated : Option String := none
deriving DecidableEq, Repr

/-- Truthiness of a Python `dict.get` result: a present, non-empty
string is truthy; `None` and `""` are falsy. -/
def pyTruthy : Option String → Option String
  | some s => if s = "" then none else some s
  | none => none

/-- Python `a or b or ""` over two `dict.get` results: the first truthy
(present and non-empty) value, else `""`. -/
def pyOr2 (a b : Option String) : String :=
  ((pyTruthy a).or (pyTruthy b)).getD ""

/-- Python `entry.get("link") or entry.get("id") or ""` — the resolved
link of an entry in the unified RSS scraper. -/
def resolveLink (e : Entry) : String :=
  pyOr2 e.link e.id

/-- The entry loop of `scrape_feed` in scrape_all_rss_feeds.py (lines
125–152), with the `seen_urls` set explicit.  `fetchBody` models the
article HTTP fetch (`none` is a failed request, giving `full_text = ""`);
`now` models `now_utc_iso()`. -/
def rssGo (feedName : String) (fetchBody : String → Option Html)
    (docAvailable : Bool) (now : String) :
    List Entry → List String → List CanonicalRecord
  | [], _ => []
  | e :: rest, seen =>
    let url := resolveLink e
    if url ∈ seen ∨ url = "" then
      rssGo feedName fetchBody docAvailable now rest seen
    else
      { feed := feedName
        title := cleanWhitespace (e.title.getD "")
        url := url
        published := pyOr2 e.published e.updated
        summary := pyOr2 e.summary e.description
        full_text :=
          match fetchBody url with
          | some h => extract_main_text docAvailable h
          | none => ""
        scraped_at := now } ::
      rssGo feedName fetchBody docAvailable now rest (url :: seen)

/-- Python `scrape_feed(feed_name, feed_url, max_items)` of
scrape_all_rss_feeds.py, applied to the parsed entries: truncate to
`max_items` when positive (0 means unbounded), then run the dedup loop
with an empty seen set. -/
def rssScrapeFeed (feedName : String) (fetchBody : String → Option Html)
    (docAvailable : Bool) (now : String) (entries : List Entry)
    (maxItems : Nat) : List CanonicalRecord :=
  rssGo feedName fetchBody docAvailable now
    (if 0 < maxItems then entries.take maxItems else entries) []

/-- First-seen-wins filtering of a list of resolved links: drop empty
links and links already seen.  This is the spec-side description of
which urls survive one `scrape_feed` call. -/
def firstSeenFilter : List String → List String → List String
  | _, [] => []
  | seen, u :: rest =>
    if u ∈ seen ∨ u = "" then firstSeenFilter seen rest
    else u :: firstSeenFilter (u :: seen) rest

/-- Python `scrape_feed(max_items)` of scrape_gelderlander.py (lines
89–117): one record per entry of `feed.entries[:max_items]`, with no
per-fetch dedup and no link fallback (`entry.get("link", "")`). -/
def glScrapeFeed (fetchBody : String → Option Html) (docAvailable : Bool)
    (now : String) (entries : List Entry) (maxItems : Nat) :
    List CanonicalRecord :=
  (entries.take maxItems).map fun e =>
    { feed := "De Gelderlander - Economie"
      title := cleanWhitespace (e.title.getD "")
      url := e.link.getD ""
      published := e.published.getD ""
      summary := cleanWhitespace (e.summary.getD "")
      full_text :=
        match fetchBody (e.link.getD "") with
        | some h => gl_extract_main_text docAvailable h
        | none => ""
      scraped_at := now }

/-! ## The police API adapter -/

/-- A raw article of the police API, restricted to the keys
`convert_article` reads.  Each element of `alineas` stands for the
`BeautifulSoup(...).get_text(separator=" ", strip=True)` rendering of
one `alinea["opgemaaktetekst"]`; `alineas = none` models the
`except:` branch of the paragraph loop firing (leaving `paragraphs`
as `[""]`). -/
structure RawPolice where
  titel : Option String := none
  url : Option String := none
  publicatiedatum : Option String := none
  introductie : Option String := none
  alineas : Option (List String) := none

/-- Python `convert_article(old)` (scrape_police.py, lines 17–52).
`pubFormat` models the `strptime`/`strftime` RFC-1123 reformatting
(`none` is a parse failure, in which case the raw string is passed
through; an absent `publicatiedatum` raises `KeyError` inside the `try`
and yields `old.get("publicatiedatum", "") = ""`).  Non-empty paragraph
texts are joined with single spaces; `title` and `summary` are passed
through verbatim. -/
def convert_article (pubFormat : String → Option String) (now : String)
    (old : RawPolice) : CanonicalRecord :=
  let paragraphs : List String :=
    match old.alineas with
    | some texts => texts.filter (fun t => t ≠ "")
    | none => [""]
  { feed := "Politie"
    title := old.titel.getD ""
    url := old.url.getD ""
    published :=
      match old.publicatiedatum with
      | some raw => (pubFormat raw).getD raw
      | none => ""
    summary := old.introductie.getD ""
    full_text := String.intercalate " " paragraphs
    scraped_at := now }

/-! ## Windowed pagination (`fetch_news`, scrape_police.py lines 56–100)

Dates are integers at calendar-day granularity (`timedelta(days=n)` is
`+ n`).  The outer loop of `fetch_news` walks `current_end` from
`end_date` down to `start_date`, each window being
`[max(current_end - increment + 1 day, start_date), current_end]` with
`increment = 15 days`, and continues at `current_end = current_start - 1`.
The loop is embedded with explicit fuel; `fetchWindows` supplies fuel
`to_date + 1 - from_date`, which the theorems show is sufficient. -/

/-- The window-producing outer loop of `fetch_news`, with fuel. -/
def buildWindows (startDate : Int) : Nat → Int → List (Int × Int)
  | 0, _ => []
  | fuel + 1, currentEnd =>
    if startDate ≤ currentEnd then
      let currentStart := max (currentEnd - 14) startDate
      (currentStart, currentEnd) :: buildWindows startDate fuel (currentStart - 1)
    else []

/-- The sequence of `(fromdate, todate)` windows `fetch_news(from, to)`
requests, most recent first. -/
def fetchWindows (fromDate toDate : Int) : List (Int × Int) :=
  buildWindows fromDate (toDate + 1 - fromDate).toNat toDate

/-- Specification of the window sequence for a range `[s, e]`: every
window lies inside `[s, e]`, is well-formed and spans at most 15 days
(`w.2 - w.1 ≤ 14`); the first window ends at `e`; each later window ends
one day before the previous window starts; windows are pairwise disjoint;
the oldest window starts exactly at `s`; and every day of `[s, e]` is
covered by some window. -/
def WindowsSpec (s e : Int) (l : List (Int × Int)) : Prop :=
  (∀ w ∈ l, s ≤ w.1 ∧ w.1 ≤ w.2 ∧ w.2 ≤ e ∧ w.2 - w.1 ≤ 14) ∧
  l.head? = some (max (e - 14) s, e) ∧
  List.Chain' (fun a b => b.2 = a.1 - 1) l ∧
  List.Pairwise (fun a b => b.2 < a.1) l ∧
  (∃ w, l.getLast? = some w ∧ w.1 = s) ∧
  (∀ d, s ≤ d → d ≤ e → ∃ w ∈ l, w.1 ≤ d ∧ d ≤ w.2)

/-! ## Within-window paging (`fetch_news` inner loop, lines 70–94) -/

/-- A response of the police API as the inner loop reads it:
`nieuwsberichten = none` models a missing results key (the loop treats
it like an empty list), and `iteratorLast` is `data["iterator"].get("last")`
with a missing flag read as `True` (`iterator.get("last", True)`). -/
structure ApiResponse where
  nieuwsberichten : Option (List PItem)
  iteratorLast : Option Bool

/-- The inner `while True` paging loop of `fetch_news` for one window,
with fuel.  `respond` maps an offset to the API response; `maxItems` is
the page size (25 in the source).  Returns the accumulated raw items and
the list of offsets actually requested, in request order. -/
def pageLoop (respond : Nat → ApiResponse) (maxItems : Nat) :
    Nat → Nat → List PItem × List Nat
  | 0, _ => ([], [])
  | fuel + 1, offset =>
    let r := respond offset
    match r.nieuwsberichten with
    | none => ([], [offset])
    | some items =>
      if items = [] then ([], [offset])
      else if r.iteratorLast.getD true then (items, [offset])
      else
        let next := pageLoop respond maxItems fuel (offset + maxItems)
        (items ++ next.1, offset :: next.2)

/-! ## Incremental update (`update_csvs`, scrape_police.py lines 124–139) -/

/-- Python `update_csvs()`, with the file I/O made explicit: `data` is
the loaded corpus, `today` the current date, `parseAnchor` models
`datetime.strptime(published_str, "%a, %d %b %Y %H:%M:%S %Z")` followed
by `strftime("%Y%m%d")` (`none` is a `ValueError`), and `fetchRange`
models `fetch_news`.  Every failure before the fetch (`data[0]` on an
empty corpus, `["published"]` on a record without the key, an
unparsable anchor timestamp) raises to the caller — embedded as
`.error ()` — and the fetch and the file write never happen; on success
the corpus written back is `merge_and_dedupe(result + data)`. -/
def update_csvs (parseAnchor : String → Option Int)
    (fetchRange : Int → Int → List PItem) (today : Int)
    (data : List PItem) : Except Unit (List PItem) :=
  match data.head? with
  | none => .error ()
  | some first =>
    match first.get "published" with
    | none => .error ()
    | some pub =>
      match parseAnchor pub with
      | none => .error ()
      | some anchor =>
        .ok (merge_and_dedupe (fetchRange anchor today ++ data) "url")

/-! ## Lemmas about `merge_and_dedupe` -/

theorem dedupeAux_congr (key : String) :
    ∀ (l : List PItem) (s₁ s₂ : List (Option String)),
      (∀ x, x ∈ s₁ ↔ x ∈ s₂) → dedupeAux key l s₁ = dedupeAux key l s₂ := by
  intro l
  induction l with
  | nil => intro s₁ s₂ _; rfl
  | cons x l ih =>
    intro s₁ s₂ h
    by_cases hx : x.get key ∈ s₁
    · rw [dedupeAux, if_pos hx, dedupeAux, if_pos ((h _).mp hx)]
      exact ih s₁ s₂ h
    · rw [dedupeAux, if_neg hx, dedupeAux, if_neg (fun hc => hx ((h _).mpr hc))]
      exact congrArg _ (ih _ _ (fun y => by
        simp only [List.mem_cons]
        exact or_congr Iff.rfl (h y)))

theorem dedupeAux_append (key : String) :
    ∀ (l₁ l₂ : List PItem) (s : List (Option String)),
      dedupeAux key (l₁ ++ l₂) s =
        dedupeAux key l₁ s ++
          dedupeAux key l₂ (l₁.map (fun it => it.get key) ++ s) := by
  intro l₁
  induction l₁ with
  | nil => intro l₂ s; rfl
  | cons x l₁ ih =>
    intro l₂ s
    by_cases hx : x.get key ∈ s
    · have hL : dedupeAux key ((x :: l₁) ++ l₂) s = dedupeAux key (l₁ ++ l₂) s := by
        rw [List.cons_append, dedupeAux, if_pos hx]
      have hR : dedupeAux key (x :: l₁) s = dedupeAux key l₁ s := by
        rw [dedupeAux, if_pos hx]
      have hseen : dedupeAux key l₂ (l₁.map (fun it => it.get key) ++ s) =
          dedupeAux key l₂ ((x :: l₁).map (fun it => it.get key) ++ s) := by
        apply dedupeAux_congr
        intro y
        simp only [List.map_cons, List.cons_append, List.mem_cons]
        constructor
        · intro hy; exact Or.inr hy
        · rintro (rfl | hy)
          · exact List.mem_append.mpr (Or.inr hx)
          · exact hy
      rw [hL, hR, ih, hseen]
    · have hL : dedupeAux key ((x :: l₁) ++ l₂) s =
          x :: dedupeAux key (l₁ ++ l₂) (x.get key :: s) := by
        rw [List.cons_append, dedupeAux, if_neg hx]
      have hR : dedupeAux key (x :: l₁) s =
          x :: dedupeAux key l₁ (x.get key :: s) := by
        rw [dedupeAux, if_neg hx]
      have hseen : dedupeAux key l₂ (l₁.map (fun it => it.get key) ++
            (x.get key :: s)) =
          dedupeAux key l₂ ((x :: l₁).map (fun it => it.get key) ++ s) := by
        apply dedupeAux_congr
        intro y
        simp only [List.map_cons, List.cons_append, List.mem_cons, List.mem_append]
        tauto
      rw [hL, hR, ih, hseen, List.cons_append]

theorem dedupeAux_eq_nil (key : String) :
    ∀ (l : List PItem) (s : List (Option String)),
      (∀ x ∈ l, x.get key ∈ s) → dedupeAux key l s = [] := by
  intro l
  induction l with
  | nil => intro s _; rfl
  | cons x l ih =>
    intro s h
    rw [dedupeAux, if_pos (h x (List.mem_cons_self x l))]
    exact ih s fun y hy => h y (List.mem_cons_of_mem x hy)

theorem dedupeAux_self (key : String) :
    ∀ (l : List PItem) (s : List (Option String)),
      dedupeAux key (dedupeAux key l s) s = dedupeAux key l s := by
  intro l
  induction l with
  | nil => intro s; rfl
  | cons x l ih =>
    intro s
    by_cases hx : x.get key ∈ s
    · rw [dedupeAux, if_pos hx]
      exact ih s
    · rw [dedupeAux, if_neg hx, dedupeAux, if_neg hx]
      exact congrArg _ (ih (x.get key :: s))

theorem mem_of_mem_dedupeAux (key : String) :
    ∀ (l : List PItem) (s : List (Option String)) (x : PItem),
      x ∈ dedupeAux key l s → x ∈ l := by
  intro l
  induction l with
  | nil => intro s x h; exact absurd h (List.not_mem_nil x)
  | cons y l ih =>
    intro s x h
    by_cases hy : y.get key ∈ s
    · rw [dedupeAux, if_pos hy] at h
      exact List.mem_cons_of_mem y (ih s x h)
    · rw [dedupeAux, if_neg hy] at h
      rcases List.mem_cons.mp h with rfl | h
      · exact List.mem_cons_self x l
      · exact List.mem_cons_of_mem y (ih _ x h)

/-- Repeating `merge_and_dedupe` on the same incoming batch is a no-op:
the police-scraper merge `merge(C, B) = merge_and_dedupe(B + C)` is
idempotent under re-merging `B`, for any key. -/
theorem merge_and_dedupe_idem (key : String) (C B : List PItem) :
    merge_and_dedupe (B ++ merge_and_dedupe (B ++ C) key) key =
      merge_and_dedupe (B ++ C) key := by
  unfold merge_and_dedupe
  rw [dedupeAux_append key B C []]
  rw [dedupeAux_append key B _ []]
  rw [dedupeAux_append key (dedupeAux key B []) _ _]
  have h1 : dedupeAux key (dedupeAux key B [])
      (B.map (fun it => it.get key) ++ []) = [] := by
    apply dedupeAux_eq_nil
    intro x hx
    exact List.mem_append.mpr (Or.inl
      (List.mem_map_of_mem _ (mem_of_mem_dedupeAux key B [] x hx)))
  rw [h1, List.nil_append]
  have h2 : dedupeAux key (dedupeAux key C (B.map (fun it => it.get key) ++ []))
      ((dedupeAux key B []).map (fun it => it.get key) ++
        (B.map (fun it => it.get key) ++ [])) =
      dedupeAux key (dedupeAux key C (B.map (fun it => it.get key) ++ []))
        (B.map (fun it => it.get key) ++ []) := by
    apply dedupeAux_congr
    intro y
    constructor
    · intro hy
      rcases List.mem_append.mp hy with hy | hy
      · rcases List.mem_map.mp hy with ⟨x, hx, rfl⟩
        exact List.mem_append.mpr (Or.inl
          (List.mem_map_of_mem _ (mem_of_mem_dedupeAux key B [] x hx)))
      · exact hy
    · intro hy
      exact List.mem_append.mpr (Or.inr hy)
  rw [h2, dedupeAux_self]

theorem find?_dedupeAux (key : String) (ko : Option String) :
    ∀ (l : List PItem) (s : List (Option String)), ko ∉ s →
      (dedupeAux key l s).find? (fun it => it.get key == ko) =
        l.find? (fun it => it.get key == ko) := by
  intro l
  induction l with
  | nil => intro s _; rfl
  | cons x l ih =>
    intro s hs
    by_cases hx : x.get key = ko
    · have hm : x.get key ∉ s := hx ▸ hs
      rw [dedupeAux, if_neg hm]
      rw [List.find?_cons_of_pos _ (by simp [hx]), List.find?_cons_of_pos _ (by simp [hx])]
    · have hp : (fun it => it.get key == ko) x = false := by
        simp only [beq_eq_false_iff_ne, ne_eq]
        exact hx
      by_cases hm : x.get key ∈ s
      · rw [dedupeAux, if_pos hm, List.find?_cons_of_neg _ (by simp [hp])]
        exact ih s hs
      · rw [dedupeAux, if_neg hm, List.find?_cons_of_neg _ (by simp [hp]),
          List.find?_cons_of_neg _ (by simp [hp])]
        exact ih (x.get key :: s) (by
          intro hc
          rcases List.mem_cons.mp hc with hc | hc
          · exact hx hc.symm
          · exact hs hc)

theorem find?_append_left {α : Type} (p : α → Bool) :
    ∀ (l₁ l₂ : List α), (l₁.find? p).isSome →
      (l₁ ++ l₂).find? p = l₁.find? p := by
  intro l₁
  induction l₁ with
  | nil => intro l₂ h; exact absurd h (by simp)
  | cons x l₁ ih =>
    intro l₂ h
    by_cases hp : p x
    · rw [List.cons_append, List.find?_cons_of_pos _ hp, List.find?_cons_of_pos _ hp]
    · rw [List.cons_append, List.find?_cons_of_neg _ (by simp [hp]),
        List.find?_cons_of_neg _ (by simp [hp])]
      rw [List.find?_cons_of_neg _ (by simp [hp])] at h
      exact ih l₂ h

/-! ## Lemmas about the gelderlander merge -/

theorem gelSeen_append (l₁ l₂ : List PItem) :
    gelSeen (l₁ ++ l₂) = gelSeen l₁ ++ gelSeen l₂ :=
  List.filterMap_append l₁ l₂ _

theorem falsy_not_mem_gelSeen (existing : List PItem) (u : Option String)
    (hu : pyTruthy u = none) : u ∉ gelSeen existing := by
  intro h
  rcases List.mem_filterMap.mp h with ⟨a, _, ha⟩
  split at ha
  · rename_i s _
    by_cases hs : s = ""
    · rw [if_pos hs] at ha
      exact Option.noConfusion ha
    · rw [if_neg hs] at ha
      have hsu : some s = u := Option.some.inj ha
      rw [← hsu] at hu
      simp [pyTruthy, hs] at hu
  · exact Option.noConfusion ha

theorem glFilterNew_eq_nil (seen : List (Option String)) :
    ∀ B : List PItem, (∀ a ∈ B, a.get "url" ∈ seen) →
      glFilterNew seen B = [] := by
  intro B
  induction B with
  | nil => intro _; rfl
  | cons x B ih =>
    intro h
    rw [glFilterNew, if_pos (h x (List.mem_cons_self x B))]
    exact ih fun a ha => h a (List.mem_cons_of_mem x ha)

theorem glFilterNew_covers (B : List PItem) :
    ∀ (seen : List (Option String)) (b : PItem), b ∈ B →
      b.get "url" ∈ seen ∨
        ∃ a ∈ glFilterNew seen B, a.get "url" = b.get "url" := by
  induction B with
  | nil => intro seen b hb; exact absurd hb (List.not_mem_nil b)
  | cons x B ih =>
    intro seen b hb
    by_cases hx : x.get "url" ∈ seen
    · rw [glFilterNew, if_pos hx]
      rcases List.mem_cons.mp hb with rfl | hb
      · exact Or.inl hx
      · exact ih seen b hb
    · rw [glFilterNew, if_neg hx]
      rcases List.mem_cons.mp hb with rfl | hb
      · exact Or.inr ⟨b, List.mem_cons_self b _, rfl⟩
      · rcases ih (x.get "url" :: seen) b hb with h | ⟨a, ha, hk⟩
        · rcases List.mem_cons.mp h with h | h
          · exact Or.inr ⟨x, List.mem_cons_self x _, h.symm⟩
          · exact Or.inl h
        · exact Or.inr ⟨a, List.mem_cons_of_mem x ha, hk⟩

/-- Re-merging a batch of truthy-url records through `save_articles`'s
merge is a no-op: every record of `B` is already represented in
`glMerge C B` by a record with the same url, so the second pass appends
nothing. -/
theorem glMerge_idem (C B : List PItem)
    (hB : ∀ a ∈ B, (pyTruthy (a.get "url")).isSome) :
    glMerge (glMerge C B) B = glMerge C B := by
  unfold glMerge
  have hnil : glFilterNew (gelSeen (C ++ glFilterNew (gelSeen C) B)) B = [] := by
    apply glFilterNew_eq_nil
    intro b hb
    rw [gelSeen_append]
    rcases glFilterNew_covers B (gelSeen C) b hb with h | ⟨a, ha, hk⟩
    · exact List.mem_append.mpr (Or.inl h)
    · have htr := hB b hb
      cases hu : b.get "url" with
      | none => rw [hu] at htr; simp [pyTruthy] at htr
      | some u =>
        by_cases hs : u = ""
        · rw [hu, hs] at htr; simp [pyTruthy] at htr
        · refine List.mem_append.mpr (Or.inr ?_)
          apply List.mem_filterMap.mpr
          refine ⟨a, ha, ?_⟩
          rw [hk.trans hu]
          simp [hs]
  rw [hnil, List.append_nil]

/-- C1 (amended): repeated merging of the same batch is idempotent for
the police merge `merge(C, B) = merge_and_dedupe(B + C)` with any key,
unconditionally; for the gelderlander `save_articles` merge it is
idempotent provided every record of the batch has a present, non-empty
`url` (the counterexample shows it fails otherwise). -/
theorem C1_merge_idempotent :
    (∀ (key : String) (C B : List PItem),
      merge_and_dedupe (B ++ merge_and_dedupe (B ++ C) key) key =
        merge_and_dedupe (B ++ C) key) ∧
    (∀ C B : List PItem, (∀ a ∈ B, (pyTruthy (a.get "url")).isSome) →
      glMerge (glMerge C B) B = glMerge C B) :=
  ⟨merge_and_dedupe_idem, glMerge_idem⟩

/-- C1 counterexample: for a batch holding one record whose `url` is the
empty string, merging the batch twice through the gelderlander merge
duplicates the record — `merge(merge(C, B), B) ≠ merge(C, B)` — because
the seen set loaded from the merged corpus skips empty urls. -/
theorem C1_counterexample :
    glMerge (glMerge [] [PItem.mk [("url", "")]]) [PItem.mk [("url", "")]] ≠
      glMerge [] [PItem.mk [("url", "")]] := by
  decide

/-- Witness for C1 at a concrete corpus and batch. -/
theorem C1_witness :
    (∀ a ∈ [PItem.mk [("url", "u1")]], (pyTruthy (a.get "url")).isSome) ∧
    glMerge (glMerge [] [PItem.mk [("url", "u1")]]) [PItem.mk [("url", "u1")]] =
      glMerge [] [PItem.mk [("url", "u1")]] :=
  ⟨by decide, C1_merge_idempotent.2 [] [PItem.mk [("url", "u1")]] (by decide)⟩

/-- C2 counterexample: two incoming records that both lack a `url` field
are merged into an empty corpus; the claim says both are appended, but
the code appends only the first — the second record's `None` key is
found in the seen set, which the first record's append extended. -/
theorem C2_counterexample :
    glMerge [] [PItem.mk [("title", "eerste")], PItem.mk [("title", "tweede")]] =
      [PItem.mk [("title", "eerste")]] ∧
    PItem.mk [("title", "tweede")] ∉
      glMerge [] [PItem.mk [("title", "eerste")], PItem.mk [("title", "tweede")]] := by
  decide

/-- C2 (amended): a record with an absent or empty `url` is never
matched against the existing corpus — the seen set built by
`load_existing_articles` contains no falsy key, so the first incoming
record with a falsy url is always appended; but its key (`None` or `""`)
is then added to the seen set, so later incoming records in the same
merge with the same falsy key are skipped as duplicates. -/
theorem C2_falsy_url_handling :
    (∀ (existing : List PItem) (u : Option String), pyTruthy u = none →
      u ∉ gelSeen existing) ∧
    (∀ (existing : List PItem) (a : PItem) (rest : List PItem),
      pyTruthy (a.get "url") = none →
      glMerge existing (a :: rest) =
        existing ++ a :: glFilterNew (a.get "url" :: gelSeen existing) rest) := by
  constructor
  · exact falsy_not_mem_gelSeen
  · intro existing a rest ha
    unfold glMerge
    rw [glFilterNew, if_neg (falsy_not_mem_gelSeen existing _ ha)]

/-- Witness for C2 at a concrete merge: a url-less record is appended
past an existing corpus that does have urls. -/
theorem C2_witness :
    pyTruthy ((PItem.mk [("title", "los")]).get "url") = none ∧
    glMerge [PItem.mk [("url", "vast")]] [PItem.mk [("title", "los")]] =
      [PItem.mk [("url", "vast")]] ++ PItem.mk [("title", "los")] ::
        glFilterNew ((PItem.mk [("title", "los")]).get "url" ::
          gelSeen [PItem.mk [("url", "vast")]]) [] :=
  ⟨by decide, C2_falsy_url_handling.2 [PItem.mk [("url", "vast")]]
    (PItem.mk [("title", "los")]) [] (by decide)⟩

/-- C7: the generalized merge `merge_and_dedupe(incoming + existing, key)`
retains, for every key value occurring in `incoming`, exactly the first
incoming record bearing it — newly fetched records take priority over
existing ones sharing the same key. -/
theorem C7_merge_prefers_incoming (key : String) (incoming existing : List PItem)
    (ko : Option String)
    (h : (incoming.find? (fun it => it.get key == ko)).isSome) :
    (merge_and_dedupe (incoming ++ existing) key).find?
        (fun it => it.get key == ko) =
      incoming.find? (fun it => it.get key == ko) := by
  unfold merge_and_dedupe
  rw [find?_dedupeAux key ko (incoming ++ existing) [] (List.not_mem_nil ko)]
  exact find?_append_left _ incoming existing h

/-- Witness for C7: an incoming and an existing record share url `"a"`;
the merged corpus retains the incoming one. -/
theorem C7_witness :
    (([PItem.mk [("url", "a"), ("versie", "nieuw")]].find?
        (fun it => it.get "url" == some "a")).isSome) ∧
    (merge_and_dedupe ([PItem.mk [("url", "a"), ("versie", "nieuw")]] ++
        [PItem.mk [("url", "a"), ("versie", "oud")]]) "url").find?
        (fun it => it.get "url" == some "a") =
      [PItem.mk [("url", "a"), ("versie", "nieuw")]].find?
        (fun it => it.get "url" == some "a") :=
  ⟨by decide, C7_merge_prefers_incoming "url" _ _ (some "a") (by decide)⟩

/-! ## Incremental update: fail-fast anchor handling (C8) -/

/-- C8: incremental update fails fast on an unresolvable anchor date.
When the corpus anchor record's `published` value does not parse, the
run raises to the caller (`.error ()`), and its outcome does not depend
on the fetch oracle at all (no fetch is issued) nor produce a corpus to
write; when it parses to `d`, the run re-fetches `[d, today]` and
overwrites the corpus with `merge_and_dedupe(result + data)`. -/
theorem C8_update_fail_fast (parse : String → Option Int)
    (f g : Int → Int → List PItem) (today : Int) (data : List PItem)
    (first : PItem) (pub : String)
    (hhead : data.head? = some first)
    (hpub : first.get "published" = some pub) :
    (parse pub = none →
      update_csvs parse f today data = .error () ∧
      update_csvs parse f today data = update_csvs parse g today data) ∧
    (∀ d : Int, parse pub = some d →
      update_csvs parse f today data =
        .ok (merge_and_dedupe (f d today ++ data) "url")) := by
  constructor
  · intro hparse
    constructor <;> simp [update_csvs, hhead, hpub, hparse]
  · intro d hparse
    simp [update_csvs, hhead, hpub, hparse]

/-- Witness for C8: a one-record corpus whose `published` value parses
to no date makes the update fail fast, independently of the fetcher. -/
theorem C8_witness :
    update_csvs (fun _ => none) (fun _ _ => []) 20251012
        [PItem.mk [("published", "geen datum")]] = .error () ∧
    update_csvs (fun _ => none) (fun _ _ => []) 20251012
        [PItem.mk [("published", "geen datum")]] =
      update_csvs (fun _ => none) (fun _ _ => [PItem.mk [("url", "x")]]) 20251012
        [PItem.mk [("published", "geen datum")]] :=
  (C8_update_fail_fast (fun _ => none) (fun _ _ => [])
    (fun _ _ => [PItem.mk [("url", "x")]]) 20251012
    [PItem.mk [("published", "geen datum")]]
    (PItem.mk [("published", "geen datum")]) "geen datum" rfl (by decide)).1 rfl

/-! ## Unreadable corpus file (C10) -/

theorem mem_of_mem_glFilterNew :
    ∀ (l : List PItem) (seen : List (Option String)) (x : PItem),
      x ∈ glFilterNew seen l → x ∈ l := by
  intro l
  induction l with
  | nil => intro seen x h; exact absurd h (List.not_mem_nil x)
  | cons a l ih =>
    intro seen x h
    by_cases ha : a.get "url" ∈ seen
    · rw [glFilterNew, if_pos ha] at h
      exact List.mem_cons_of_mem a (ih seen x h)
    · rw [glFilterNew, if_neg ha] at h
      rcases List.mem_cons.mp h with rfl | h
      · exact List.mem_cons_self x l
      · exact List.mem_cons_of_mem a (ih _ x h)

theorem glFilterNew_of_nodup :
    ∀ (l : List PItem) (seen : List (Option String)),
      (l.map (fun a => a.get "url")).Nodup →
      (∀ a ∈ l, a.get "url" ∉ seen) →
      glFilterNew seen l = l := by
  intro l
  induction l with
  | nil => intro seen _ _; rfl
  | cons a l ih =>
    intro seen hnd hs
    rw [List.map_cons] at hnd
    rcases List.nodup_cons.mp hnd with ⟨hna, hnd'⟩
    rw [glFilterNew, if_neg (hs a (List.mem_cons_self a l))]
    congr 1
    apply ih _ hnd'
    intro b hb hc
    rcases List.mem_cons.mp hc with hc | hc
    · exact hna (hc ▸ List.mem_map_of_mem _ hb)
    · exact hs b (List.mem_cons_of_mem a hb) hc

/-- C10: when the corpus file is present but unreadable or invalid JSON,
loading yields the empty corpus and empty seen set (returning normally —
the caller sees no error), so the subsequent save writes a complete
replacement containing only records of the newly fetched batch; when
the batch's url keys are pairwise distinct the written file is exactly
the batch. -/
theorem C10_unreadable_replaces (batch : List PItem) :
    load_existing_articles .unreadable = ([], []) ∧
    (∀ r ∈ save_articles .unreadable batch, r ∈ batch) ∧
    ((batch.map (fun a => a.get "url")).Nodup →
      save_articles .unreadable batch = batch) := by
  refine ⟨rfl, ?_, ?_⟩
  · intro r hr
    have hr' : r ∈ glFilterNew [] batch := by
      simpa [save_articles, load_existing_articles] using hr
    exact mem_of_mem_glFilterNew batch [] r hr'
  · intro hnd
    show ([] : List PItem) ++ glFilterNew [] batch = batch
    rw [List.nil_append]
    exact glFilterNew_of_nodup batch [] hnd (fun a _ => List.not_mem_nil _)

/-- Witness for C10: an unreadable file plus a two-record batch with
distinct urls ends with exactly the batch on disk. -/
theorem C10_witness :
    (([PItem.mk [("url", "a")], PItem.mk [("url", "b")]].map
        (fun a => a.get "url")).Nodup) ∧
    save_articles .unreadable [PItem.mk [("url", "a")], PItem.mk [("url", "b")]] =
      [PItem.mk [("url", "a")], PItem.mk [("url", "b")]] :=
  ⟨by decide, (C10_unreadable_replaces _).2.2 (by decide)⟩

/-! ## Feed-adapter dedup (C3) -/

theorem rssGo_map_url (feedName : String) (fetchBody : String → Option Html)
    (docAvailable : Bool) (now : String) :
    ∀ (entries : List Entry) (seen : List String),
      (rssGo feedName fetchBody docAvailable now entries seen).map
          (fun r => r.url) =
        firstSeenFilter seen (entries.map resolveLink) := by
  intro entries
  induction entries with
  | nil => intro seen; rfl
  | cons e entries ih =>
    intro seen
    simp only [List.map_cons, rssGo, firstSeenFilter]
    by_cases h : resolveLink e ∈ seen ∨ resolveLink e = ""
    · rw [if_pos h, if_pos h]
      exact ih seen
    · rw [if_neg h, if_neg h, List.map_cons]
      exact congrArg _ (ih _)

theorem rssGo_scraped_at (feedName : String) (fetchBody : String → Option Html)
    (docAvailable : Bool) (now : String) :
    ∀ (entries : List Entry) (seen : List String) (r : CanonicalRecord),
      r ∈ rssGo feedName fetchBody docAvailable now entries seen →
      r.scraped_at = now := by
  intro entries
  induction entries with
  | nil => intro seen r hr; exact absurd hr (List.not_mem_nil r)
  | cons e entries ih =>
    intro seen r hr
    simp only [rssGo] at hr
    by_cases h : resolveLink e ∈ seen ∨ resolveLink e = ""
    · rw [if_pos h] at hr
      exact ih seen r hr
    · rw [if_neg h] at hr
      rcases List.mem_cons.mp hr with rfl | hr
      · rfl
      · exact ih _ r hr

/-- C3 (amended): the unified RSS adapter keeps exactly the entries with
a resolvable, not-yet-seen link — the urls of one fetch call's output are
the first-seen-wins filtering of the entries' resolved links — and every
record carries the stamped `scraped_at`; its 3-entry feed with a
duplicate link between entries 1 and 3 yields exactly 2 records.  The
gelderlander adapter, however, performs no per-fetch dedup: it returns
one record per entry taken (duplicates included). -/
theorem C3_feed_dedup :
    (∀ (feedName : String) (fetchBody : String → Option Html)
        (docAvailable : Bool) (now : String) (entries : List Entry)
        (seen : List String),
      (rssGo feedName fetchBody docAvailable now entries seen).map
          (fun r => r.url) =
        firstSeenFilter seen (entries.map resolveLink)) ∧
    (∀ (feedName : String) (fetchBody : String → Option Html)
        (docAvailable : Bool) (now : String) (entries : List Entry)
        (maxItems : Nat) (r : CanonicalRecord),
      r ∈ rssScrapeFeed feedName fetchBody docAvailable now entries maxItems →
      r.scraped_at = now) ∧
    ((rssScrapeFeed "F" (fun _ => none) false "2025-10-12T00:00:00Z"
        [{ link := some "https://a" }, { link := some "https://b" },
         { link := some "https://a" }] 0).length = 2) ∧
    (∀ (fetchBody : String → Option Html) (docAvailable : Bool) (now : String)
        (entries : List Entry) (maxItems : Nat),
      (glScrapeFeed fetchBody docAvailable now entries maxItems).length =
        min maxItems entries.length) := by
  refine ⟨rssGo_map_url, ?_, by decide, ?_⟩
  · intro feedName fetchBody docAvailable now entries maxItems r hr
    exact rssGo_scraped_at feedName fetchBody docAvailable now _ [] r hr
  · intro fetchBody docAvailable now entries maxItems
    simp [glScrapeFeed, List.length_take]

/-- C3 counterexample: the gelderlander `scrape_feed` on a 3-entry feed
whose entries 1 and 3 share a link returns 3 records, not the 2 the
claim requires of every FeedAdapter fetch. -/
theorem C3_counterexample :
    (glScrapeFeed (fun _ => none) false "2025-10-12T00:00:00Z"
        [{ link := some "https://a" }, { link := some "https://b" },
         { link := some "https://a" }] 30).length = 3 ∧
    (glScrapeFeed (fun _ => none) false "2025-10-12T00:00:00Z"
        [{ link := some "https://a" }, { link := some "https://b" },
         { link := some "https://a" }] 30).length ≠ 2 := by
  constructor <;> decide

/-- Witness for C3: a concrete one-entry fetch whose record carries the
stamped `scraped_at`. -/
theorem C3_witness :
    ({ feed := "F", title := "", url := "https://a", published := "",
       summary := "", full_text := "", scraped_at := "T" } : CanonicalRecord) ∈
      rssScrapeFeed "F" (fun _ => none) false "T" [{ link := some "https://a" }] 0 ∧
    ({ feed := "F", title := "", url := "https://a", published := "",
       summary := "", full_text := "", scraped_at := "T" } :
        CanonicalRecord).scraped_at = "T" :=
  ⟨by decide, C3_feed_dedup.2.1 "F" (fun _ => none) false "T"
    [{ link := some "https://a" }] 0 _ (by decide)⟩

/-! ## Whitespace-collapse lemmas -/

theorem splitWsAux_words :
    ∀ (cs acc : List Char), (∀ c ∈ acc, ¬ c.isWhitespace) →
      ∀ w ∈ splitWsAux cs acc, w ≠ [] ∧ ∀ c ∈ w, ¬ c.isWhitespace := by
  intro cs
  induction cs with
  | nil =>
    intro acc hacc w hw
    by_cases h : acc = []
    · rw [splitWsAux, if_pos h] at hw
      exact absurd hw (List.not_mem_nil w)
    · rw [splitWsAux, if_neg h] at hw
      rcases List.mem_cons.mp hw with rfl | hw
      · refine ⟨fun hc => h (by simpa using congrArg List.reverse hc), ?_⟩
        intro c hc
        exact hacc c (List.mem_reverse.mp hc)
      · exact absurd hw (List.not_mem_nil w)
  | cons c cs ih =>
    intro acc hacc w hw
    by_cases hws : c.isWhitespace
    · by_cases h : acc = []
      · rw [splitWsAux, if_pos hws, if_pos h] at hw
        exact ih [] (by simp) w hw
      · rw [splitWsAux, if_pos hws, if_neg h] at hw
        rcases List.mem_cons.mp hw with rfl | hw
        · refine ⟨fun hc => h (by simpa using congrArg List.reverse hc), ?_⟩
          intro x hx
          exact hacc x (List.mem_reverse.mp hx)
        · exact ih [] (by simp) w hw
    · rw [splitWsAux, if_neg hws] at hw
      refine ih (c :: acc) ?_ w hw
      intro x hx
      rcases List.mem_cons.mp hx with rfl | hx
      · exact hws
      · exact hacc x hx

theorem chain'_of_no_ws (l : List Char) (h : ∀ c ∈ l, ¬ c.isWhitespace) :
    List.Chain' (fun a b => ¬(a.isWhitespace ∧ b.isWhitespace)) l := by
  induction l with
  | nil => exact List.chain'_nil
  | cons a l ih =>
    cases l with
    | nil => exact List.chain'_singleton a
    | cons b l' =>
      rw [List.chain'_cons]
      exact ⟨fun hc => h a (List.mem_cons_self a _) hc.1,
        ih fun c hc => h c (List.mem_cons_of_mem _ hc)⟩

theorem pyJoinWords_head (c : Char) (v0 : List Char) (ws : List (List Char)) :
    (pyJoinWords ((c :: v0) :: ws)).head? = some c := by
  cases ws with
  | nil => rfl
  | cons u us => rfl

theorem mem_of_getLast? {α : Type} :
    ∀ (l : List α) (a : α), l.getLast? = some a → a ∈ l := by
  intro l
  induction l with
  | nil => intro a h; exact Option.noConfusion h
  | cons x l ih =>
    intro a h
    cases l with
    | nil =>
      have : a = x := by simpa using h.symm
      rw [this]
      exact List.mem_cons_self x []
    | cons y l' =>
      rw [List.getLast?_cons_cons] at h
      exact List.mem_cons_of_mem x (ih a h)

theorem okChars_pyJoinWords :
    ∀ ws : List (List Char),
      (∀ w ∈ ws, w ≠ [] ∧ ∀ c ∈ w, ¬ c.isWhitespace) →
      okChars (pyJoinWords ws) := by
  intro ws
  induction ws with
  | nil => intro _; exact ⟨List.chain'_nil, by simp [pyJoinWords]⟩
  | cons w ws ih =>
    intro h
    cases ws with
    | nil =>
      have hw := h w (List.mem_cons_self w [])
      exact ⟨chain'_of_no_ws w hw.2, fun c hc hcw => absurd hcw (hw.2 c hc)⟩
    | cons v ws' =>
      have hw := h w (List.mem_cons_self _ _)
      have hv := h v (List.mem_cons_of_mem _ (List.mem_cons_self _ _))
      have hrest : okChars (pyJoinWords (v :: ws')) :=
        ih fun u hu => h u (List.mem_cons_of_mem w hu)
      obtain ⟨c, v0, hv0⟩ : ∃ c v0, v = c :: v0 := by
        cases v with
        | nil => exact absurd rfl hv.1
        | cons c v0 => exact ⟨c, v0, rfl⟩
      constructor
      · rw [pyJoinWords, List.chain'_append]
        refine ⟨chain'_of_no_ws w hw.2, ?_, ?_⟩
        · rw [List.chain'_cons']
          refine ⟨?_, hrest.1⟩
          intro y hy hcontra
          rw [hv0, pyJoinWords_head] at hy
          have : y = c := by simpa using hy.symm
          rw [this] at hcontra
          exact hv.2 c (hv0 ▸ List.mem_cons_self c v0) hcontra.2
        · intro x hx y hy hc
          exact hw.2 x (mem_of_getLast? w x hx) hc.1
      · intro x hx hxw
        rw [pyJoinWords] at hx
        rcases List.mem_append.mp hx with hx | hx
        · exact absurd hxw (hw.2 x hx)
        · rcases List.mem_cons.mp hx with rfl | hx
          · rfl
          · exact hrest.2 x hx hxw

/-- Every output of `clean_whitespace` is whitespace-collapsed. -/
theorem collapsed_cleanWhitespace (s : String) : Collapsed (cleanWhitespace s) := by
  unfold Collapsed cleanWhitespace
  by_cases hs : s = ""
  · rw [if_pos hs]
    exact ⟨List.chain'_nil, by simp⟩
  · rw [if_neg hs]
    show okChars (pyJoinWords (pySplit s))
    exact okChars_pyJoinWords _ (splitWsAux_words s.toList [] (by simp))

theorem noNewline_of_collapsed (s : String) (h : Collapsed s) : NoNewline s := by
  intro hmem
  have := h.2 '\n' hmem (by decide)
  exact absurd this (by decide)

theorem noNewline_empty : NoNewline "" := by
  unfold NoNewline
  decide

theorem noNewline_extract_main_text (d : Bool) (h : Html) :
    NoNewline (extract_main_text d h) := by
  unfold extract_main_text
  split
  · exact noNewline_empty
  · split
    · rename_i ps heq
      show NoNewline (if joinParas ps ≠ "" ∧ 40 < pyWordCount (joinParas ps)
        then cleanWhitespace (joinParas ps)
        else cleanWhitespace (joinParas h.rawParas))
      split
      · exact noNewline_of_collapsed _ (collapsed_cleanWhitespace _)
      · exact noNewline_of_collapsed _ (collapsed_cleanWhitespace _)
    · exact noNewline_of_collapsed _ (collapsed_cleanWhitespace _)

theorem noNewline_gl_extract (d : Bool) (h : Html) :
    NoNewline (gl_extract_main_text d h) := by
  unfold gl_extract_main_text
  split
  · exact noNewline_empty
  · exact noNewline_of_collapsed _ (collapsed_cleanWhitespace _)

/-! ## Field normalization of adapter outputs (C9) -/

theorem rssGo_normalized (feedName : String) (fetchBody : String → Option Html)
    (docAvailable : Bool) (now : String) :
    ∀ (entries : List Entry) (seen : List String) (r : CanonicalRecord),
      r ∈ rssGo feedName fetchBody docAvailable now entries seen →
      Collapsed r.title ∧ NoNewline r.full_text := by
  intro entries
  induction entries with
  | nil => intro seen r hr; exact absurd hr (List.not_mem_nil r)
  | cons e entries ih =>
    intro seen r hr
    simp only [rssGo] at hr
    by_cases hc : resolveLink e ∈ seen ∨ resolveLink e = ""
    · rw [if_pos hc] at hr
      exact ih seen r hr
    · rw [if_neg hc] at hr
      rcases List.mem_cons.mp hr with rfl | hr
      · refine ⟨collapsed_cleanWhitespace _, ?_⟩
        show NoNewline (match fetchBody (resolveLink e) with
          | some hdoc => extract_main_text docAvailable hdoc
          | none => "")
        cases fetchBody (resolveLink e) with
        | none => exact noNewline_empty
        | some hdoc => exact noNewline_extract_main_text docAvailable hdoc
      · exact ih _ r hr

theorem glScrapeFeed_normalized (fetchBody : String → Option Html)
    (docAvailable : Bool) (now : String) (entries : List Entry) (maxItems : Nat)
    (r : CanonicalRecord)
    (hr : r ∈ glScrapeFeed fetchBody docAvailable now entries maxItems) :
    Collapsed r.title ∧ Collapsed r.summary ∧ NoNewline r.full_text := by
  rcases List.mem_map.mp hr with ⟨e, _, rfl⟩
  refine ⟨collapsed_cleanWhitespace _, collapsed_cleanWhitespace _, ?_⟩
  show NoNewline (match fetchBody (e.link.getD "") with
    | some hdoc => gl_extract_main_text docAvailable hdoc
    | none => "")
  cases fetchBody (e.link.getD "") with
  | none => exact noNewline_empty
  | some hdoc => exact noNewline_gl_extract docAvailable hdoc

/-- C9 (amended): the unified RSS adapter emits records with collapsed
`title` and single-line `full_text`, and the gelderlander adapter
additionally collapses `summary`; but the unified adapter's `summary`
is taken verbatim from the feed (see the counterexample), and the police
converter passes `title` and `summary` through entirely unnormalized. -/
theorem C9_field_normalization :
    (∀ (feedName : String) (fetchBody : String → Option Html)
        (docAvailable : Bool) (now : String) (entries : List Entry)
        (maxItems : Nat) (r : CanonicalRecord),
      r ∈ rssScrapeFeed feedName fetchBody docAvailable now entries maxItems →
      Collapsed r.title ∧ NoNewline r.full_text) ∧
    (∀ (fetchBody : String → Option Html) (docAvailable : Bool) (now : String)
        (entries : List Entry) (maxItems : Nat) (r : CanonicalRecord),
      r ∈ glScrapeFeed fetchBody docAvailable now entries maxItems →
      Collapsed r.title ∧ Collapsed r.summary ∧ NoNewline r.full_text) ∧
    (∀ (pubFormat : String → Option String) (now : String) (old : RawPolice),
      (convert_article pubFormat now old).title = old.titel.getD "" ∧
      (convert_article pubFormat now old).summary = old.introductie.getD "") := by
  refine ⟨?_, glScrapeFeed_normalized, fun _ _ _ => ⟨rfl, rfl⟩⟩
  intro feedName fetchBody docAvailable now entries maxItems r hr
  exact rssGo_normalized feedName fetchBody docAvailable now _ [] r hr

/-- C9 counterexample: the unified RSS adapter copies `summary` verbatim,
so a feed entry whose summary contains a newline run produces a record
whose `summary` is not whitespace-collapsed — the claimed invariant
fails for that record. -/
theorem C9_counterexample :
    (rssScrapeFeed "F" (fun _ => none) false "T"
        [{ link := some "https://a",
           summary := some "regel een\n\nregel twee" }] 0).map
        (fun r => r.summary) = ["regel een\n\nregel twee"] ∧
    ¬ Collapsed "regel een\n\nregel twee" := by
  constructor
  · decide
  · intro h
    have := h.2 '\n' (by decide) (by decide)
    exact absurd this (by decide)

/-- Witness for C9: a concrete unified-adapter record satisfies the
amended invariant. -/
theorem C9_witness :
    (({ feed := "F", title := "", url := "https://x", published := "",
        summary := "", full_text := "", scraped_at := "T" } : CanonicalRecord) ∈
      rssScrapeFeed "F" (fun _ => none) false "T" [{ link := some "https://x" }] 0) ∧
    (Collapsed ({ feed := "F", title := "", url := "https://x",
                  published := "", summary := "", full_text := "",
                  scraped_at := "T" } : CanonicalRecord).title ∧
     NoNewline ({ feed := "F", title := "", url := "https://x",
                  published := "", summary := "", full_text := "",
                  scraped_at := "T" } : CanonicalRecord).full_text) :=
  ⟨by decide, C9_field_normalization.1 "F" (fun _ => none) false "T"
    [{ link := some "https://x" }] 0 _ (by decide)⟩

/-! ## Text-extraction fallback chain (C4) -/

/-- C4 (amended): the unified scraper's extractor returns the
(collapsed) readability text exactly when it is non-empty and strictly
above the 40-word floor, and otherwise returns the collapsed join of the
raw document's paragraphs (also when the library is unavailable or the
readability pass raised); empty HTML yields `""`.  The gelderlander
extractor diverges: with the library available it returns the collapsed
readability join unconditionally — no word floor and no fallback on an
empty extraction (see the counterexample). -/
theorem C4_extractor_fallback :
    (∀ (h : Html) (d : Bool), h.source = "" → extract_main_text d h = "") ∧
    (∀ (h : Html) (ps : List String), h.source ≠ "" →
      h.readability = some ps → joinParas ps ≠ "" →
      40 < pyWordCount (joinParas ps) →
      extract_main_text true h = cleanWhitespace (joinParas ps)) ∧
    (∀ h : Html, h.source ≠ "" →
      (h.readability = none ∨
        (∃ ps, h.readability = some ps ∧
          (joinParas ps = "" ∨ pyWordCount (joinParas ps) ≤ 40))) →
      extract_main_text true h = cleanWhitespace (joinParas h.rawParas)) ∧
    (∀ h : Html, h.source ≠ "" →
      extract_main_text false h = cleanWhitespace (joinParas h.rawParas)) ∧
    (∀ (h : Html) (ps : List String), h.source ≠ "" → h.readability = some ps →
      gl_extract_main_text true h = cleanWhitespace (joinParas ps)) := by
  refine ⟨?_, ?_, ?_, ?_, ?_⟩
  · intro h d hs
    simp [extract_main_text, hs]
  · intro h ps hs hr hne hgt
    simp [extract_main_text, hs, hr, hne, hgt]
  · intro h hs hor
    rcases hor with hnone | ⟨ps, hps, hshort⟩
    · simp [extract_main_text, hs, hnone]
    · have hcond : ¬(joinParas ps ≠ "" ∧ 40 < pyWordCount (joinParas ps)) := by
        rcases hshort with he | hle
        · intro hc; exact hc.1 he
        · intro hc; omega
      simp only [extract_main_text, if_neg hs, hps]
      rw [if_neg hcond]
  · intro h hs
    simp [extract_main_text, hs]
  · intro h ps hs hr
    simp [gl_extract_main_text, hs, hr]

/-- C4 counterexample: on HTML whose readability pass succeeds but
captures no paragraphs while the raw document holds a single 10-word
paragraph, the claim requires the fallback (the paragraph's text); the
gelderlander extractor instead returns `""`. -/
theorem C4_counterexample :
    gl_extract_main_text true
      (Html.mk "<p>een twee drie vier vijf zes zeven acht negen tien</p>"
        (some []) ["een twee drie vier vijf zes zeven acht negen tien"]) = "" ∧
    cleanWhitespace
        (joinParas ["een twee drie vier vijf zes zeven acht negen tien"]) =
      "een twee drie vier vijf zes zeven acht negen tien" ∧
    ("" : String) ≠ "een twee drie vier vijf zes zeven acht negen tien" := by
  refine ⟨by decide, by decide, by decide⟩

/-- Witness for C4: a single 10-word paragraph is returned through the
fallback path of the unified scraper's extractor. -/
theorem C4_witness :
    extract_main_text true
      (Html.mk "<p>een twee drie vier vijf zes zeven acht negen tien</p>"
        (some ["een twee drie vier vijf zes zeven acht negen tien"])
        ["een twee drie vier vijf zes zeven acht negen tien"]) =
      cleanWhitespace
        (joinParas ["een twee drie vier vijf zes zeven acht negen tien"]) ∧
    cleanWhitespace
        (joinParas ["een twee drie vier vijf zes zeven acht negen tien"]) =
      "een twee drie vier vijf zes zeven acht negen tien" :=
  ⟨C4_extractor_fallback.2.2.1 _ (by decide)
    (Or.inr ⟨_, rfl, Or.inr (by decide)⟩), by decide⟩

/-! ## Window sequence of `fetch_news` (C5) -/

theorem buildWindows_of_lt (s : Int) (fuel : Nat) (ce : Int) (h : ce < s) :
    buildWindows s fuel ce = [] := by
  cases fuel with
  | zero => rfl
  | succ n => rw [buildWindows, if_neg (by omega)]

theorem getLast?_cons_of_ne_nil {α : Type} (x : α) (l : List α) (h : l ≠ []) :
    (x :: l).getLast? = l.getLast? := by
  cases l with
  | nil => exact absurd rfl h
  | cons y l' => exact List.getLast?_cons_cons

theorem buildWindows_spec (s : Int) :
    ∀ (fuel : Nat) (ce : Int), s ≤ ce → ce + 1 - s ≤ (fuel : Int) →
      WindowsSpec s ce (buildWindows s fuel ce) := by
  intro fuel
  induction fuel with
  | zero =>
    intro ce hce hf
    exfalso
    push_cast at hf
    omega
  | succ n ih =>
    intro ce hce hf
    push_cast at hf
    rw [buildWindows, if_pos hce]
    show WindowsSpec s ce
      ((max (ce - 14) s, ce) :: buildWindows s n (max (ce - 14) s - 1))
    set cs := max (ce - 14) s with hcs
    have hm1 : s ≤ cs := le_max_right _ _
    have hm2 : ce - 14 ≤ cs := le_max_left _ _
    have hm3 : cs ≤ ce := max_le (by omega) hce
    by_cases hrec : s ≤ cs - 1
    · have hfuel : (cs - 1) + 1 - s ≤ (n : Int) := by omega
      obtain ⟨ha, hhead, hchain, hpw, ⟨wl, hwl, hwls⟩, hcov⟩ :=
        ih (cs - 1) hrec hfuel
      refine ⟨?_, rfl, ?_, ?_, ?_, ?_⟩
      · intro w hw
        rcases List.mem_cons.mp hw with rfl | hw
        · exact ⟨hm1, hm3, le_refl ce, by omega⟩
        · obtain ⟨h1, h2, h3, h4⟩ := ha w hw
          exact ⟨h1, h2, by omega, h4⟩
      · rw [List.chain'_cons']
        refine ⟨?_, hchain⟩
        intro y hy
        rw [hhead] at hy
        have hy' : y = (max (cs - 1 - 14) s, cs - 1) := by simpa using hy.symm
        rw [hy']
      · rw [List.pairwise_cons]
        refine ⟨?_, hpw⟩
        intro b hb
        obtain ⟨h1, h2, h3, h4⟩ := ha b hb
        show b.2 < cs
        omega
      · refine ⟨wl, ?_, hwls⟩
        have hne : buildWindows s n (cs - 1) ≠ [] := by
          intro hnil
          rw [hnil] at hhead
          exact Option.noConfusion hhead
        rw [getLast?_cons_of_ne_nil _ _ hne]
        exact hwl
      · intro d hd1 hd2
        by_cases hdc : cs ≤ d
        · exact ⟨(cs, ce), List.mem_cons_self _ _, hdc, hd2⟩
        · obtain ⟨w, hw, hw1, hw2⟩ := hcov d hd1 (by omega)
          exact ⟨w, List.mem_cons_of_mem _ hw, hw1, hw2⟩
    · have hcseq : cs = s := by omega
      rw [buildWindows_of_lt s n (cs - 1) (by omega)]
      refine ⟨?_, rfl, List.chain'_singleton _, List.pairwise_singleton _ _,
        ⟨(cs, ce), by simp, hcseq⟩, ?_⟩
      · intro w hw
        rcases List.mem_cons.mp hw with rfl | hw
        · exact ⟨hm1, hm3, le_refl ce, by omega⟩
        · exact absurd hw (List.not_mem_nil w)
      · intro d hd1 hd2
        exact ⟨(cs, ce), List.mem_cons_self _ _, by omega, hd2⟩

/-- C5: for every range with `from_date ≤ to_date`, the windows
requested by `fetch_news` each span at most 15 calendar days, walk from
the most recent window backward, are adjacent (each next window ends one
day before the previous starts) and pairwise disjoint, cover every day
of the range, stay inside it, and the oldest window's start is clipped
to `from_date`. -/
theorem C5_windows_cover (s e : Int) (h : s ≤ e) :
    WindowsSpec s e (fetchWindows s e) :=
  buildWindows_spec s _ e h (le_of_eq (Int.toNat_of_nonneg (by omega)).symm)

/-- Witness for C5 at the range `2025-01-01..2025-01-31`, embedded at
day granularity as `[1, 31]`. -/
theorem C5_witness :
    (1 : Int) ≤ 31 ∧ WindowsSpec 1 31 (fetchWindows 1 31) :=
  ⟨by norm_num, C5_windows_cover 1 31 (by norm_num)⟩

/-! ## Within-window paging (C6) -/

theorem pageLoop_offsets_arith (respond : Nat → ApiResponse) (maxItems : Nat) :
    ∀ (fuel offset : Nat), ∃ k,
      (pageLoop respond maxItems fuel offset).2 =
        List.range' offset k maxItems := by
  intro fuel
  induction fuel with
  | zero => intro offset; exact ⟨0, rfl⟩
  | succ n ih =>
    intro offset
    cases hr : (respond offset).nieuwsberichten with
    | none => exact ⟨1, by simp [pageLoop, hr, List.range']⟩
    | some items =>
      by_cases hi : items = []
      · exact ⟨1, by simp [pageLoop, hr, hi, List.range']⟩
      · by_cases hl : (respond offset).iteratorLast.getD true = true
        · exact ⟨1, by simp [pageLoop, hr, hi, hl, List.range']⟩
        · have hl' : (respond offset).iteratorLast.getD true = false := by
            revert hl
            cases (respond offset).iteratorLast.getD true <;> simp
          obtain ⟨k, hk⟩ := ih (offset + maxItems)
          refine ⟨k + 1, ?_⟩
          have hred : (pageLoop respond maxItems (n + 1) offset).2 =
              offset :: (pageLoop respond maxItems n (offset + maxItems)).2 := by
            simp [pageLoop, hr, hi, hl']
          rw [hred, hk]
          rfl

/-- C6: within one window, a response with no (or a missing) results
list ends the paging immediately — that offset is the only one requested
and nothing further is ever requested for the window; a non-empty
response whose `last` flag is missing or `true` ends the window after
accumulating its items; otherwise the next request is at exactly
`offset + page size`; and the offsets requested in a window form the
arithmetic progression `offset, offset + maxItems, ...`. -/
theorem C6_paging (respond : Nat → ApiResponse) (maxItems : Nat)
    (fuel offset : Nat) :
    (((respond offset).nieuwsberichten = none ∨
        (respond offset).nieuwsberichten = some []) →
      pageLoop respond maxItems (fuel + 1) offset = ([], [offset])) ∧
    (∀ items, (respond offset).nieuwsberichten = some items → items ≠ [] →
      (respond offset).iteratorLast.getD true = true →
      pageLoop respond maxItems (fuel + 1) offset = (items, [offset])) ∧
    (∀ items, (respond offset).nieuwsberichten = some items → items ≠ [] →
      (respond offset).iteratorLast.getD true = false →
      pageLoop respond maxItems (fuel + 1) offset =
        (items ++ (pageLoop respond maxItems fuel (offset + maxItems)).1,
         offset :: (pageLoop respond maxItems fuel (offset + maxItems)).2)) ∧
    (∃ k, (pageLoop respond maxItems fuel offset).2 =
      List.range' offset k maxItems) := by
  refine ⟨?_, ?_, ?_, pageLoop_offsets_arith respond maxItems fuel offset⟩
  · rintro (h | h) <;> simp [pageLoop, h]
  · intro items hr hi hl
    simp [pageLoop, hr, hi, hl]
  · intro items hr hi hl
    simp [pageLoop, hr, hi, hl]

/-- Witness for C6: a concrete responder returning one page at offset 0
with `last = false` and an empty page at offset 25 makes the loop
request offsets 0 and 25 and then stop. -/
theorem C6_witness :
    pageLoop
        (fun o => if o = 0
          then ApiResponse.mk (some [PItem.mk [("url", "a")]]) (some false)
          else ApiResponse.mk (some []) none)
        25 2 0 =
      ([PItem.mk [("url", "a")]], [0, 25]) := by
  have hstep := (C6_paging
    (fun o => if o = 0
      then ApiResponse.mk (some [PItem.mk [("url", "a")]]) (some false)
      else ApiResponse.mk (some []) none)
    25 1 0).2.2.1 [PItem.mk [("url", "a")]] (by decide) (by decide) (by decide)
  have hstop := (C6_paging
    (fun o => if o = 0
      then ApiResponse.mk (some [PItem.mk [("url", "a")]]) (some false)
      else ApiResponse.mk (some []) none)
    25 0 25).1 (Or.inr (by decide))
  rw [hstep, hstop]
  rfl

end PvoLimburg
